import Mathlib

/-!
Verification of the Ripple API impact analyzer's reference-matching engine
(`main.py`).  Python strings are embedded as `List Char`; each function of the
source is translated one-to-one.  Machine-checked statements about the
comment-stripping state machine, the path-to-pattern rule, the line matcher
and the scan coordinator follow the definitions.
-/

namespace Ripple

/-- Python strings are modelled as lists of characters. -/
abbrev Str := List Char

/-- Character list of a Lean string literal (used to write test inputs). -/
def strL (s : String) : Str := s.data

/-- The single-quote character (U+0027), written by code point. -/
def sq : Char := Char.ofNat 39

/-- The double-quote character (U+0022), written by code point. -/
def dq : Char := Char.ofNat 34

/-- The opening-brace character, written by code point. -/
def lbrace : Char := Char.ofNat 123

/-- The closing-brace character, written by code point. -/
def rbrace : Char := Char.ofNat 125

/-- Whitespace characters stripped by Python `str.strip` on source lines. -/
def isPySpace (c : Char) : Bool :=
  c == ' ' || c == '\t' || c == '\n' || c == '\r' ||
  c == Char.ofNat 11 || c == Char.ofNat 12

/-- Python `s.lstrip()`. -/
def pyLstrip (s : Str) : Str := s.dropWhile isPySpace

/-- Python `s.rstrip()`. -/
def pyRstrip (s : Str) : Str := (s.reverse.dropWhile isPySpace).reverse

/-- Python `s.strip()`. -/
def pyStrip (s : Str) : Str := pyRstrip (pyLstrip s)

/-- Python `s.find(sub)`: index of the leftmost occurrence of `sub` in `s`
(`none` models the -1 result). -/
def pyFind (sub : Str) : Str → Option Nat
  | [] => if sub.isPrefixOf [] then some 0 else none
  | c :: cs =>
    if sub.isPrefixOf (c :: cs) then some 0
    else (pyFind sub cs).map (· + 1)

/-- Python `sub in s` (contiguous-substring test). -/
def pyContains (s sub : Str) : Bool := (pyFind sub s).isSome

/-- Fuel-driven worker for `path_to_pattern`: the left-to-right single-pass
replacement performed by `re.sub` with a pattern that matches a slash, an
opening brace, one or more non-closing-brace characters and a closing brace,
replacing each match by the slash alone (main.py line 62). -/
def path_to_pattern_aux : Nat → Str → Str
  | 0, s => s
  | _ + 1, [] => []
  | fuel + 1, c :: cs =>
    if c = '/' then
      match cs with
      | d :: rest =>
        if d = lbrace then
          match rest.dropWhile (fun x => !(x == rbrace)) with
          | _ :: tail =>
            if (rest.takeWhile (fun x => !(x == rbrace))).isEmpty then
              c :: d :: path_to_pattern_aux fuel rest
            else
              c :: path_to_pattern_aux fuel tail
          | [] => c :: d :: path_to_pattern_aux fuel rest
        else c :: path_to_pattern_aux fuel cs
      | [] => [c]
    else c :: path_to_pattern_aux fuel cs

/-- `path_to_pattern` from main.py lines 61-62. -/
def path_to_pattern (s : Str) : Str := path_to_pattern_aux s.length s

/-- `get_comment_char` from main.py lines 65-66. -/
def get_comment_char (ext : Str) : Str :=
  if ext = strL ".py" then ['#'] else ['/', '/']

/-- `remove_inline_comment` from main.py lines 69-77. -/
def remove_inline_comment (line comment_char : Str) : Str :=
  match pyFind comment_char line with
  | some pos =>
    let before := line.take pos
    if before.count sq % 2 = 0 ∧ before.count dq % 2 = 0 then
      pyRstrip before
    else line
  | none => line

/-- The three-double-quote marker. -/
def tripleD : Str := [dq, dq, dq]

/-- The three-single-quote marker. -/
def tripleS : Str := [sq, sq, sq]

/-- The C-style block comment opening marker. -/
def blockStart : Str := ['/', '*']

/-- The C-style block comment closing marker. -/
def blockEnd : Str := ['*', '/']

/-- `is_multiline_comment_start` from main.py lines 80-84. -/
def is_multiline_comment_start (line ext : Str) : Bool :=
  let stripped := pyStrip line
  if ext = strL ".py" then
    tripleD.isPrefixOf stripped || tripleS.isPrefixOf stripped
  else pyContains stripped blockStart

/-- `is_multiline_comment_end` from main.py lines 87-91. -/
def is_multiline_comment_end (line ext : Str) : Bool :=
  let stripped := pyStrip line
  if ext = strL ".py" then
    pyContains stripped tripleD || pyContains stripped tripleS
  else pyContains stripped blockEnd

/-- `process_code_line` from main.py lines 94-120: one step of the per-file
comment-filter state machine (state = `in_multiline_comment`). -/
def process_code_line (line ext : Str) (in_multiline_comment : Bool) :
    Str × Bool :=
  if in_multiline_comment then
    if is_multiline_comment_end line ext then ([], false) else ([], true)
  else if is_multiline_comment_start line ext then
    if ext = strL ".py" then
      let stripped := pyStrip line
      if tripleD.isPrefixOf stripped then
        match pyFind tripleD (stripped.drop 3) with
        | some e => (pyStrip ((stripped.drop 3).drop (e + 3)), false)
        | none => ([], true)
      else if tripleS.isPrefixOf stripped then
        match pyFind tripleS (stripped.drop 3) with
        | some e => (pyStrip ((stripped.drop 3).drop (e + 3)), false)
        | none => ([], true)
      else (remove_inline_comment line (get_comment_char ext), false)
    else
      if pyContains line blockStart then
        match pyFind blockStart line with
        | some i =>
          let before := line.take i
          let after_marker := line.drop (i + 2)
          match pyFind blockEnd after_marker with
          | some j => (pyStrip (before ++ after_marker.drop (j + 2)), false)
          | none => (pyStrip before, true)
        | none => (remove_inline_comment line (get_comment_char ext), false)
      else (remove_inline_comment line (get_comment_char ext), false)
  else (remove_inline_comment line (get_comment_char ext), false)

/-- One located occurrence: 1-based line number plus the stripped raw line
truncated to 100 characters (main.py lines 144-147). -/
structure Reference where
  line : Nat
  code : Str
deriving DecidableEq, Repr

/-- The per-line match test of `find_api_references` (main.py lines 135-141):
literal substring first, then — only for paths holding a parameter
placeholder — the derived pattern. -/
def lineMatches (api_path processed_line : Str) : Bool :=
  if pyContains processed_line api_path then true
  else if api_path.contains lbrace then
    pyContains processed_line (path_to_pattern api_path)
  else false

/-- Worker for `find_api_references`: scans lines carrying the 1-based line
number and the comment-filter state. -/
def findRefsAux (api_path ext : Str) : List Str → Nat → Bool → List Reference
  | [], _, _ => []
  | raw :: rest, n, inml =>
    if (process_code_line raw ext inml).1 = [] then
      findRefsAux api_path ext rest (n + 1) (process_code_line raw ext inml).2
    else if lineMatches api_path (process_code_line raw ext inml).1 then
      ⟨n, (pyStrip raw).take 100⟩ ::
        findRefsAux api_path ext rest (n + 1) (process_code_line raw ext inml).2
    else findRefsAux api_path ext rest (n + 1) (process_code_line raw ext inml).2

/-- `find_api_references` from main.py lines 123-149. -/
def find_api_references (api_path : Str) (lines : List Str) (ext : Str) :
    List Reference :=
  findRefsAux api_path ext lines 1 false

/-- The sequence of processed (comment-stripped) lines of a file: the
comment-filter state machine run over the whole file from the `Normal`
state. -/
def processAll (ext : Str) : Bool → List Str → List Str
  | _, [] => []
  | st, raw :: rest =>
    (process_code_line raw ext st).1 ::
      processAll ext (process_code_line raw ext st).2 rest

/-- Specification-side rule of claim C1: the 1-based numbers of the lines
whose processed content holds the literal path as a substring. -/
def literalMatchLines (api_path : Str) : List Str → Nat → List Nat
  | [], _ => []
  | p :: rest, n =>
    if pyContains p api_path then n :: literalMatchLines api_path rest (n + 1)
    else literalMatchLines api_path rest (n + 1)

/-- Specification-side match rule of claim C5: literal substring OR (only
with a placeholder present) pattern substring — a plain disjunction, so a
line satisfying both still counts once. -/
def specMatch (api_path p : Str) : Bool :=
  pyContains p api_path ||
    (api_path.contains lbrace && pyContains p (path_to_pattern api_path))

/-- Specification-side reference list of claim C5, built from the pairs of
raw and processed lines. -/
def refsSpecAux (api_path : Str) : List (Str × Str) → Nat → List Reference
  | [], _ => []
  | (raw, p) :: rest, n =>
    if !p.isEmpty && specMatch api_path p then
      ⟨n, (pyStrip raw).take 100⟩ :: refsSpecAux api_path rest (n + 1)
    else refsSpecAux api_path rest (n + 1)

/-- Specification-side reference list for one endpoint on one file. -/
def refsSpec (api_path : Str) (lines : List Str) (ext : Str) :
    List Reference :=
  refsSpecAux api_path (lines.zip (processAll ext false lines)) 1

/-- A reference as stored in the aggregated result (main.py line 187). -/
structure Location where
  file : Str
  line : Nat
  code : Str
deriving DecidableEq, Repr

/-- A candidate file: relative path, extension tag and content; `none`
content models a file whose open/read/decode raises. -/
structure FileData where
  relPath : Str
  ext : Str
  content : Option (List Str)
deriving DecidableEq, Repr

/-- `analyze_single_file` from main.py lines 175-191: the catch-all `except`
returns the relative path with an empty pair list, recording nothing. -/
def analyze_single_file (f : FileData) (api_paths : List Str) :
    Str × List (Str × Location) :=
  match f.content with
  | none => (f.relPath, [])
  | some lines =>
    (f.relPath,
      api_paths.flatMap fun p =>
        (find_api_references p lines f.ext).map fun r =>
          (p, ⟨f.relPath, r.line, r.code⟩))

/-- The endpoint-to-locations map, as an association list whose keys keep the
spec's endpoint order (endpoint paths are unique, being YAML mapping keys). -/
abbrev ScanResult := List (Str × List Location)

/-- `api_locations = (dict-comprehension)` of main.py line 196. -/
def emptyResult (api_paths : List Str) : ScanResult :=
  api_paths.map fun p => (p, [])

/-- `api_locations[api_path].append(location)` of main.py line 209. -/
def appendLoc (m : ScanResult) (p : Str) (loc : Location) : ScanResult :=
  m.map fun e => if e.1 = p then (e.1, e.2 ++ [loc]) else e

/-- Merging one completed file's pair list into the result map. -/
def mergeFile (m : ScanResult) (results : List (Str × Location)) : ScanResult :=
  results.foldl (fun acc pr => appendLoc acc pr.1 pr.2) m

/-- The outcome of one worker task as seen by `future.result()`: since
`analyze_single_file` catches every exception itself, the task always
completes normally. -/
def taskOutcome (f : FileData) (api_paths : List Str) :
    Except Str (Str × List (Str × Location)) :=
  Except.ok (analyze_single_file f api_paths)

/-- One iteration of the `as_completed` loop of main.py lines 204-211: a
normally-completed task is merged; a raised task would append a warning
message instead. -/
def coordinatorStep (api_paths : List Str) (acc : ScanResult × List Str)
    (f : FileData) : ScanResult × List Str :=
  match taskOutcome f api_paths with
  | Except.ok r => (mergeFile acc.1 r.2, acc.2)
  | Except.error msg => (acc.1, acc.2 ++ [msg])

/-- `analyze_api_usage_parallel` from main.py lines 194-213, with the
completion order abstracted as the given file order; the second component is
the list of recorded warnings. -/
def analyze_api_usage_parallel (api_paths : List Str)
    (files : List FileData) : ScanResult × List Str :=
  files.foldl (coordinatorStep api_paths) (emptyResult api_paths, [])

/-- The scan phase of `main` (main.py lines 756-792): with no candidate file
the process prints a warning and exits with status 0 before any analysis or
report; otherwise it analyzes and exits 1 only under `--fail-on-unused` with
unreferenced endpoints present.  Returned: (exit status, computed result). -/
def mainScanPhase (fail_on_unused : Bool) (api_paths : List Str)
    (files : List FileData) : Nat × Option ScanResult :=
  if files.isEmpty then (0, none)
  else
    let result := (analyze_api_usage_parallel api_paths files).1
    let unreferenced := result.countP fun e => e.2.isEmpty
    if fail_on_unused && unreferenced > 0 then (1, some result)
    else (0, some result)

/-! Substring-search lemmas for the embedded Python string operations. -/

/-- `List.isPrefixOf` characterized by an append decomposition. -/
theorem prefixOf_exists : ∀ {l s : Str}, l.isPrefixOf s = true ↔ ∃ t, s = l ++ t := by
  intro l
  induction l with
  | nil => intro s; simp [List.isPrefixOf]
  | cons a as ih =>
    intro s
    cases s with
    | nil => simp [List.isPrefixOf]
    | cons b bs =>
      simp only [List.isPrefixOf, Bool.and_eq_true, beq_iff_eq, List.cons_append]
      constructor
      · rintro ⟨rfl, h⟩
        obtain ⟨t, rfl⟩ := ih.mp h
        exact ⟨t, rfl⟩
      · rintro ⟨t, ht⟩
        injection ht with hb hbs
        exact ⟨hb.symm, ih.mpr ⟨t, hbs⟩⟩

/-- The empty string is a substring of everything (Python `"" in s`). -/
theorem pyContains_nil_sub : ∀ s : Str, pyContains s [] = true := by
  intro s
  cases s <;> rfl

/-- Unfolding of the substring test on a cons cell. -/
theorem pyContains_cons (c : Char) (cs sub : Str) :
    pyContains (c :: cs) sub = (sub.isPrefixOf (c :: cs) || pyContains cs sub) := by
  simp only [pyContains, pyFind]
  by_cases h : sub.isPrefixOf (c :: cs) = true
  · simp [h]
  · simp only [Bool.not_eq_true] at h
    simp [h]

/-- A nonempty string is not a substring of the empty string. -/
theorem pyContains_nil (sub : Str) (h : sub ≠ []) : pyContains [] sub = false := by
  cases sub with
  | nil => exact absurd rfl h
  | cons a as => rfl

/-- Substring containment characterized by an append decomposition. -/
theorem contains_iff_decomp {s sub : Str} :
    pyContains s sub = true ↔ ∃ u w, s = u ++ sub ++ w := by
  induction s with
  | nil =>
    cases sub with
    | nil => simp [pyContains_nil_sub]
    | cons a as =>
      simp only [pyContains_nil (a :: as) (List.cons_ne_nil a as), Bool.false_eq_true,
        false_iff]
      rintro ⟨u, w, h⟩
      simp at h
  | cons c cs ih =>
    rw [pyContains_cons, Bool.or_eq_true, prefixOf_exists, ih]
    constructor
    · rintro (⟨t, ht⟩ | ⟨u, w, rfl⟩)
      · exact ⟨[], t, by simpa using ht⟩
      · exact ⟨c :: u, w, rfl⟩
    · rintro ⟨u, w, h⟩
      cases u with
      | nil =>
        left
        exact ⟨w, by simpa using h⟩
      | cons a u' =>
        right
        injection h with h1 h2
        exact ⟨u', w, h2⟩

/-- Substring containment is transitive. -/
theorem pyContains_trans {s a b : Str} (h1 : pyContains s a = true)
    (h2 : pyContains a b = true) : pyContains s b = true := by
  obtain ⟨u, w, rfl⟩ := contains_iff_decomp.mp h1
  obtain ⟨u', w', rfl⟩ := contains_iff_decomp.mp h2
  exact contains_iff_decomp.mpr ⟨u ++ u', w' ++ w, by simp⟩

/-- A prefix is in particular a substring. -/
theorem prefixOf_contains {s sub : Str} (h : sub.isPrefixOf s = true) :
    pyContains s sub = true := by
  obtain ⟨t, rfl⟩ := prefixOf_exists.mp h
  exact contains_iff_decomp.mpr ⟨[], t, rfl⟩

/-- `pyFind` returns exactly the index of the leftmost occurrence. -/
theorem pyFind_eq_some_iff {sub s : Str} {i : Nat} :
    pyFind sub s = some i ↔
      sub.isPrefixOf (s.drop i) = true ∧
        ∀ j, j < i → sub.isPrefixOf (s.drop j) = false := by
  induction s generalizing i with
  | nil =>
    rw [show pyFind sub [] = if sub.isPrefixOf [] = true then some 0 else none from rfl]
    by_cases h : sub.isPrefixOf [] = true
    · rw [if_pos h]
      constructor
      · rintro h'
        injection h' with h'
        subst h'
        exact ⟨h, fun j hj => absurd hj (Nat.not_lt_zero j)⟩
      · rintro ⟨-, hall⟩
        rcases Nat.eq_zero_or_pos i with rfl | hpos
        · rfl
        · have h0 := hall 0 hpos
          rw [List.drop_nil, h] at h0
          exact Bool.noConfusion h0
    · rw [if_neg h]
      constructor
      · rintro h'; exact Option.noConfusion h'
      · rintro ⟨h1, -⟩
        rw [List.drop_nil] at h1
        exact absurd h1 h
  | cons c cs ih =>
    rw [show pyFind sub (c :: cs) =
          (if sub.isPrefixOf (c :: cs) = true then some 0
           else (pyFind sub cs).map (· + 1)) from rfl]
    by_cases h : sub.isPrefixOf (c :: cs) = true
    · rw [if_pos h]
      constructor
      · rintro h'
        injection h' with h'
        subst h'
        exact ⟨h, fun j hj => absurd hj (Nat.not_lt_zero j)⟩
      · rintro ⟨-, hall⟩
        rcases Nat.eq_zero_or_pos i with rfl | hpos
        · rfl
        · have h0 := hall 0 hpos
          rw [List.drop_zero, h] at h0
          exact Bool.noConfusion h0
    · rw [if_neg h]
      rw [Option.map_eq_some']
      constructor
      · rintro ⟨q, hq, hi⟩
        subst hi
        obtain ⟨hq1, hq2⟩ := ih.mp hq
        refine ⟨by rw [List.drop_succ_cons]; exact hq1, ?_⟩
        intro j hj
        cases j with
        | zero =>
          rw [List.drop_zero]
          exact Bool.eq_false_iff.mpr h
        | succ j' =>
          rw [List.drop_succ_cons]
          exact hq2 j' (by omega)
      · rintro ⟨h1, hall⟩
        cases i with
        | zero =>
          rw [List.drop_zero] at h1
          exact absurd h1 h
        | succ i' =>
          refine ⟨i', ih.mpr ⟨by rw [List.drop_succ_cons] at h1; exact h1, ?_⟩, rfl⟩
          intro j hj
          have := hall (j + 1) (by omega)
          rw [List.drop_succ_cons] at this
          exact this

/-- `pyFind` fails exactly when no position carries an occurrence. -/
theorem pyFind_eq_none_iff {sub s : Str} :
    pyFind sub s = none ↔ ∀ j, sub.isPrefixOf (s.drop j) = false := by
  induction s with
  | nil =>
    rw [show pyFind sub [] = if sub.isPrefixOf [] = true then some 0 else none from rfl]
    by_cases h : sub.isPrefixOf [] = true
    · rw [if_pos h]
      constructor
      · rintro h'; exact Option.noConfusion h'
      · intro hall
        have h0 := hall 0
        rw [List.drop_nil, h] at h0
        exact Bool.noConfusion h0
    · rw [if_neg h]
      refine ⟨fun _ j => ?_, fun _ => rfl⟩
      rw [List.drop_nil]
      exact Bool.eq_false_iff.mpr h
  | cons c cs ih =>
    rw [show pyFind sub (c :: cs) =
          (if sub.isPrefixOf (c :: cs) = true then some 0
           else (pyFind sub cs).map (· + 1)) from rfl]
    by_cases h : sub.isPrefixOf (c :: cs) = true
    · rw [if_pos h]
      constructor
      · rintro h'; exact Option.noConfusion h'
      · intro hall
        have h0 := hall 0
        rw [List.drop_zero, h] at h0
        exact Bool.noConfusion h0
    · rw [if_neg h]
      rw [Option.map_eq_none', ih]
      constructor
      · intro hall j
        cases j with
        | zero =>
          rw [List.drop_zero]
          exact Bool.eq_false_iff.mpr h
        | succ j' =>
          rw [List.drop_succ_cons]
          exact hall j'
      · intro hall j
        have := hall (j + 1)
        rw [List.drop_succ_cons] at this
        exact this

/-- Substring containment transports along `reverse`. -/
theorem contains_rev_of {s sub : Str} (h : pyContains s sub = true) :
    pyContains s.reverse sub.reverse = true := by
  obtain ⟨u, w, rfl⟩ := contains_iff_decomp.mp h
  exact contains_iff_decomp.mpr
    ⟨w.reverse, u.reverse, by simp [List.reverse_append, List.append_assoc]⟩

/-- Dropping a leading run of characters that never occur in `sub` keeps
`sub` a substring. -/
theorem contains_dropWhile (q : Char → Bool) (sub : Str)
    (hfree : ∀ c ∈ sub, q c = false) :
    ∀ s : Str, pyContains s sub = true → pyContains (s.dropWhile q) sub = true := by
  intro s
  induction s with
  | nil => intro h; simpa using h
  | cons c cs ih =>
    intro h
    by_cases hq : q c = true
    · rw [List.dropWhile_cons, if_pos hq]
      rw [pyContains_cons, Bool.or_eq_true] at h
      rcases h with hpre | hcs
      · cases sub with
        | nil => exact pyContains_nil_sub _
        | cons a as =>
          obtain ⟨t, ht⟩ := prefixOf_exists.mp hpre
          injection ht with h1 _
          have := hfree a (List.mem_cons_self a as)
          rw [← h1, hq] at this
          exact Bool.noConfusion this
      · exact ih hcs
    · rw [List.dropWhile_cons, if_neg hq]
      exact h

/-- A substring made of non-whitespace characters survives `strip`. -/
theorem contains_pyStrip_of {s sub : Str}
    (hfree : ∀ c ∈ sub, isPySpace c = false)
    (h : pyContains s sub = true) : pyContains (pyStrip s) sub = true := by
  have h1 : pyContains (pyLstrip s) sub = true :=
    contains_dropWhile isPySpace sub hfree s h
  have h2 : pyContains (pyLstrip s).reverse sub.reverse = true := contains_rev_of h1
  have h3 : pyContains ((pyLstrip s).reverse.dropWhile isPySpace) sub.reverse = true :=
    contains_dropWhile isPySpace sub.reverse
      (fun c hc => hfree c (List.mem_reverse.mp hc)) _ h2
  have h4 := contains_rev_of h3
  rw [List.reverse_reverse] at h4
  exact h4

/-- `strip` only removes characters, so substrings of the stripped line are
substrings of the raw line. -/
theorem contains_of_pyStrip {s sub : Str}
    (h : pyContains (pyStrip s) sub = true) : pyContains s sub = true := by
  have hdecomp : s = s.takeWhile isPySpace ++
      (pyStrip s ++ ((pyLstrip s).reverse.takeWhile isPySpace).reverse) := by
    have h1 : s = s.takeWhile isPySpace ++ pyLstrip s :=
      (List.takeWhile_append_dropWhile isPySpace s).symm
    have h2 : pyLstrip s = pyStrip s ++ ((pyLstrip s).reverse.takeWhile isPySpace).reverse := by
      have h3 : (pyLstrip s).reverse =
          (pyLstrip s).reverse.takeWhile isPySpace ++
            (pyLstrip s).reverse.dropWhile isPySpace :=
        (List.takeWhile_append_dropWhile isPySpace (pyLstrip s).reverse).symm
      calc pyLstrip s = (pyLstrip s).reverse.reverse := (List.reverse_reverse _).symm
        _ = ((pyLstrip s).reverse.takeWhile isPySpace ++
              (pyLstrip s).reverse.dropWhile isPySpace).reverse := by rw [← h3]
        _ = pyStrip s ++ ((pyLstrip s).reverse.takeWhile isPySpace).reverse := by
              rw [List.reverse_append]; rfl
    rw [← h2]; exact h1
  have hs : pyContains s (pyStrip s) = true :=
    contains_iff_decomp.mpr
      ⟨s.takeWhile isPySpace, ((pyLstrip s).reverse.takeWhile isPySpace).reverse,
        by rw [List.append_assoc]; exact hdecomp⟩
  exact pyContains_trans hs h

/-- Whitespace-free substring search is insensitive to `strip`. -/
theorem contains_pyStrip_iff {s sub : Str}
    (hfree : ∀ c ∈ sub, isPySpace c = false) :
    pyContains (pyStrip s) sub = true ↔ pyContains s sub = true :=
  ⟨contains_of_pyStrip, contains_pyStrip_of hfree⟩

/-! Bridging lemmas between the source functions and the spec-side rules. -/

/-- The cascaded `if` of the matcher equals the plain disjunction of the
spec: the skipped pattern check never adds or removes a match. -/
theorem lineMatches_eq_specMatch (a p : Str) : lineMatches a p = specMatch a p := by
  simp only [lineMatches, specMatch]
  by_cases h : pyContains p a = true
  · simp [h]
  · rw [Bool.not_eq_true] at h
    simp only [h, Bool.false_eq_true, if_false, Bool.false_or]
    cases hc : a.contains lbrace <;> simp

/-- Without a placeholder the matcher is exactly the literal substring test. -/
theorem lineMatches_no_brace {a : Str} (hnb : a.contains lbrace = false) (p : Str) :
    lineMatches a p = pyContains p a := by
  simp only [lineMatches, hnb]
  by_cases h : pyContains p a = true
  · simp [h]
  · rw [Bool.not_eq_true] at h
    simp [h]

/-- Unfolding of the character membership test on a cons cell. -/
theorem contains_char_cons (c x : Char) (cs : Str) :
    (c :: cs).contains x = (x == c || cs.contains x) := by
  cases hxc : x == c <;> simp [List.contains, List.elem, hxc]

/-- The replacement worker returns an empty list unchanged. -/
theorem path_to_pattern_aux_nil (fuel : Nat) : path_to_pattern_aux fuel [] = [] := by
  cases fuel <;> rfl

/-- A path without an opening brace is left unchanged by the replacement. -/
theorem path_to_pattern_aux_no_brace :
    ∀ (fuel : Nat) (s : Str), s.contains lbrace = false → path_to_pattern_aux fuel s = s := by
  intro fuel
  induction fuel with
  | zero => intro s _; rfl
  | succ fuel ih =>
    intro s hs
    cases s with
    | nil => rfl
    | cons c cs =>
      rw [contains_char_cons, Bool.or_eq_false_iff] at hs
      obtain ⟨hc, hcs⟩ := hs
      cases cs with
      | nil =>
        by_cases hslash : c = '/'
        · simp [path_to_pattern_aux, hslash]
        · simp [path_to_pattern_aux, hslash, path_to_pattern_aux_nil]
      | cons d rest =>
        have hd : ¬d = lbrace := by
          intro hdeq
          rw [contains_char_cons, Bool.or_eq_false_iff] at hcs
          rw [hdeq] at hcs
          simp at hcs
        by_cases hslash : c = '/'
        · simp only [path_to_pattern_aux, if_pos hslash, if_neg hd]
          rw [ih (d :: rest) hcs]
        · simp only [path_to_pattern_aux, if_neg hslash]
          rw [ih (d :: rest) hcs]

/-- `path_to_pattern` does not touch a placeholder-free path. -/
theorem path_to_pattern_no_brace {s : Str} (hs : s.contains lbrace = false) :
    path_to_pattern s = s :=
  path_to_pattern_aux_no_brace s.length s hs

/-! Lemmas on the aggregation of per-file results. -/

/-- Appending one location never changes the key column. -/
theorem appendLoc_keys (m : ScanResult) (p : Str) (loc : Location) :
    (appendLoc m p loc).map Prod.fst = m.map Prod.fst := by
  simp only [appendLoc, List.map_map]
  apply List.map_congr_left
  intro e _
  by_cases h : e.1 = p
  · simp [h]
  · simp [h]

/-- Merging one file's pair list never changes the key column. -/
theorem mergeFile_keys (results : List (Str × Location)) :
    ∀ m : ScanResult, (mergeFile m results).map Prod.fst = m.map Prod.fst := by
  induction results with
  | nil => intro m; rfl
  | cons pr rs ih =>
    intro m
    rw [show mergeFile m (pr :: rs) = mergeFile (appendLoc m pr.1 pr.2) rs from rfl,
      ih, appendLoc_keys]

/-- Folding the coordinator step over any file list keeps the key column. -/
theorem coordinator_keys (api_paths : List Str) :
    ∀ (files : List FileData) (acc : ScanResult × List Str),
      ((files.foldl (coordinatorStep api_paths) acc).1).map Prod.fst =
        (acc.1).map Prod.fst := by
  intro files
  induction files with
  | nil => intro acc; rfl
  | cons f fs ih =>
    intro acc
    rw [List.foldl_cons, ih]
    rw [show coordinatorStep api_paths acc f =
          (mergeFile acc.1 (analyze_single_file f api_paths).2, acc.2) from rfl]
    exact mergeFile_keys _ acc.1

/-- The initial map's keys are exactly the spec's endpoints. -/
theorem emptyResult_keys (api_paths : List Str) :
    (emptyResult api_paths).map Prod.fst = api_paths := by
  simp [emptyResult, List.map_map, Function.comp_def]

/-- A file whose read fails contributes an empty pair list. -/
theorem analyze_single_file_none {f : FileData} (h : f.content = none)
    (api_paths : List Str) : analyze_single_file f api_paths = (f.relPath, []) := by
  simp [analyze_single_file, h]

/-- The single-pass scanner of `find_api_references` agrees line by line
with the two-pass rule: filter the whole file first, then emit one
`Reference` per nonempty processed line satisfying the disjunctive match. -/
theorem findRefsAux_eq_refsSpecAux (api_path ext : Str) :
    ∀ (lines : List Str) (n : Nat) (st : Bool),
      findRefsAux api_path ext lines n st =
        refsSpecAux api_path (lines.zip (processAll ext st lines)) n := by
  intro lines
  induction lines with
  | nil => intro n st; rfl
  | cons raw rest ih =>
    intro n st
    simp only [findRefsAux, processAll, List.zip_cons_cons, refsSpecAux]
    generalize hpr : process_code_line raw ext st = pr
    obtain ⟨p, st'⟩ := pr
    simp only
    by_cases hp : p = []
    · subst hp
      simp only [List.isEmpty_nil, Bool.not_true, Bool.false_and, Bool.false_eq_true,
        if_false, if_pos rfl]
      exact ih (n + 1) st'
    · have hpe : p.isEmpty = false := by
        cases p with
        | nil => exact absurd rfl hp
        | cons a as => rfl
      rw [if_neg hp]
      rw [hpe]
      simp only [Bool.not_false, Bool.true_and]
      rw [← lineMatches_eq_specMatch]
      by_cases hm : lineMatches api_path p = true
      · rw [if_pos hm, if_pos hm, ih (n + 1) st']
        rfl
      · rw [Bool.not_eq_true] at hm
        rw [hm]
        simp only [Bool.false_eq_true, if_false]
        rw [ih (n + 1) st']
        rfl

/-- For a nonempty placeholder-free endpoint path, the emitted line numbers
are exactly the 1-based positions of the processed lines that hold the
literal path as a substring. -/
theorem findRefsAux_map_line (api_path ext : Str) (hne : api_path ≠ [])
    (hnb : api_path.contains lbrace = false) :
    ∀ (lines : List Str) (n : Nat) (st : Bool),
      (findRefsAux api_path ext lines n st).map Reference.line =
        literalMatchLines api_path (processAll ext st lines) n := by
  intro lines
  induction lines with
  | nil => intro n st; rfl
  | cons raw rest ih =>
    intro n st
    simp only [findRefsAux, processAll, literalMatchLines]
    generalize hpr : process_code_line raw ext st = pr
    obtain ⟨p, st'⟩ := pr
    simp only
    by_cases hp : p = []
    · subst hp
      rw [if_pos rfl, pyContains_nil api_path hne]
      simp only [Bool.false_eq_true, if_false]
      exact ih (n + 1) st'
    · rw [if_neg hp, lineMatches_no_brace hnb]
      by_cases hm : pyContains p api_path = true
      · rw [if_pos hm, if_pos hm, List.map_cons, ih (n + 1) st']
      · rw [Bool.not_eq_true] at hm
        rw [hm]
        simp only [Bool.false_eq_true, if_false]
        exact ih (n + 1) st'

/-- Every emitted reference carries a line number inside the file's 1-based
range and a preview of at most 100 characters. -/
theorem findRefsAux_bounds (api_path ext : Str) :
    ∀ (lines : List Str) (n : Nat) (st : Bool) (r : Reference),
      r ∈ findRefsAux api_path ext lines n st →
      n ≤ r.line ∧ r.line < n + lines.length ∧ r.code.length ≤ 100 := by
  intro lines
  induction lines with
  | nil => intro n st r hr; exact absurd hr (List.not_mem_nil r)
  | cons raw rest ih =>
    intro n st r hr
    simp only [findRefsAux] at hr
    split at hr
    · have := ih (n + 1) (process_code_line raw ext st).2 r hr
      refine ⟨by omega, by simp only [List.length_cons]; omega, this.2.2⟩
    · split at hr
      · rcases List.mem_cons.mp hr with rfl | hr'
        · refine ⟨le_refl n, by simp only [List.length_cons]; omega, ?_⟩
          show ((pyStrip raw).take 100).length ≤ 100
          rw [List.length_take]
          exact min_le_left _ _
        · have := ih (n + 1) (process_code_line raw ext st).2 r hr'
          refine ⟨by omega, by simp only [List.length_cons]; omega, this.2.2⟩
      · have := ih (n + 1) (process_code_line raw ext st).2 r hr
        refine ⟨by omega, by simp only [List.length_cons]; omega, this.2.2⟩

/-! Claim C1. -/

/-- C1 counterexample: with the degenerate empty endpoint path (which holds
no placeholder), line 1 of the file processes to the empty string, the empty
path is a substring of that processed content, and yet no Reference is
produced — the code skips empty processed lines before matching, so the
unrestricted "iff" of the claim fails. -/
theorem C1_counterexample :
    find_api_references [] [strL "# x"] (strL ".py") = [] ∧
    processAll (strL ".py") false [strL "# x"] = [[]] ∧
    pyContains [] [] = true := by
  exact ⟨by decide, by decide, by decide⟩

/-- C1 (amended: the endpoint path must be nonempty): for a nonempty
endpoint path with no placeholder, a Reference is produced for a line iff
the literal path is a substring of that line's comment-stripped content
(stated as equality of the emitted line-number list with the spec-side
list), and the matcher degenerates to the plain literal substring test, so
the pattern rule plays no part. -/
theorem C1_literal_rule (api_path : Str) (lines : List Str) (ext : Str)
    (hne : api_path ≠ []) (hnb : api_path.contains lbrace = false) :
    (find_api_references api_path lines ext).map Reference.line =
      literalMatchLines api_path (processAll ext false lines) 1 ∧
    ∀ p : Str, lineMatches api_path p = pyContains p api_path :=
  ⟨findRefsAux_map_line api_path ext hne hnb lines 1 false,
    fun p => lineMatches_no_brace hnb p⟩

/-- C1 witness: evaluating the amended rule on a three-line file. -/
theorem C1_literal_rule_witness :
    literalMatchLines (strL "/users")
        (processAll (strL ".js") false
          [strL "fetch(/users);", strL "// /users", strL "x()"]) 1 = [1] ∧
    (find_api_references (strL "/users")
        [strL "fetch(/users);", strL "// /users", strL "x()"]
        (strL ".js")).map Reference.line = [1] := by
  refine ⟨by decide, ?_⟩
  rw [(C1_literal_rule (strL "/users")
    [strL "fetch(/users);", strL "// /users", strL "x()"] (strL ".js")
    (by decide) (by decide)).1]
  decide

/-! Claim C2. -/

/-- C2: for every endpoint list and every file list (including the empty
one), the aggregated result's key column is exactly the endpoint list, so
every endpoint of the spec appears as a key mapped to a (possibly empty)
reference list and none is ever absent. -/
theorem C2_endpoint_keys_complete (api_paths : List Str) (files : List FileData) :
    ((analyze_api_usage_parallel api_paths files).1).map Prod.fst = api_paths := by
  rw [show analyze_api_usage_parallel api_paths files =
        files.foldl (coordinatorStep api_paths) (emptyResult api_paths, []) from rfl,
    coordinator_keys api_paths files (emptyResult api_paths, [])]
  exact emptyResult_keys api_paths

/-! Claim C3. -/

/-- C3: a line lying entirely inside a line comment yields no Reference; a
line of code with a trailing line comment yields no Reference from the
comment portion; a path occurring only inside a three-line block comment
yields no Reference. -/
theorem C3_comment_suppression :
    find_api_references (strL "/v1/users") [strL "// GET /v1/users"]
      (strL ".js") = [] ∧
    find_api_references (strL "/v1/users") [strL "code(); // GET /v1/users"]
      (strL ".js") = [] ∧
    find_api_references (strL "/v1/users")
      [strL "/*", strL " GET /v1/users", strL "*/"] (strL ".js") = [] := by
  exact ⟨by decide, by decide, by decide⟩

/-! Claim C4. -/

/-- C4: `path_to_pattern` turns `/products/(id-placeholder)` into
`/products/` and `/a/(x)/b/(y)` into `/a//b/`, leaves placeholder-free
paths unchanged, and consequently a processed line containing
`/products/123` or `/products/` matches the endpoint while a line without
`/products/` as a substring does not match. -/
theorem C4_pattern_rule :
    path_to_pattern (strL "/products/{id}") = strL "/products/" ∧
    path_to_pattern (strL "/a/{x}/b/{y}") = strL "/a//b/" ∧
    (∀ s : Str, s.contains lbrace = false → path_to_pattern s = s) ∧
    (∀ line : Str, pyContains line (strL "/products/123") = true →
      lineMatches (strL "/products/{id}") line = true) ∧
    (∀ line : Str, pyContains line (strL "/products/") = true →
      lineMatches (strL "/products/{id}") line = true) ∧
    (∀ line : Str, pyContains line (strL "/products/") = false →
      lineMatches (strL "/products/{id}") line = false) := by
  have hpat : path_to_pattern (strL "/products/{id}") = strL "/products/" := by decide
  have hb : (strL "/products/{id}").contains lbrace = true := by decide
  refine ⟨hpat, by decide, fun s hs => path_to_pattern_no_brace hs, ?_, ?_, ?_⟩
  · intro line h
    by_cases hl : pyContains line (strL "/products/{id}") = true
    · simp [lineMatches, hl]
    · rw [Bool.not_eq_true] at hl
      have hp : pyContains line (strL "/products/") = true :=
        pyContains_trans h (by decide)
      simp only [lineMatches, hl, Bool.false_eq_true, if_false, hb, if_true, hpat]
      exact hp
  · intro line h
    by_cases hl : pyContains line (strL "/products/{id}") = true
    · simp [lineMatches, hl]
    · rw [Bool.not_eq_true] at hl
      simp only [lineMatches, hl, Bool.false_eq_true, if_false, hb, if_true, hpat]
      exact h
  · intro line h
    have hl : pyContains line (strL "/products/{id}") = false := by
      by_contra hx
      rw [Bool.not_eq_false] at hx
      have := pyContains_trans hx
        (by decide : pyContains (strL "/products/{id}") (strL "/products/") = true)
      rw [h] at this
      exact Bool.noConfusion this
    simp only [lineMatches, hl, Bool.false_eq_true, if_false, hb, if_true, hpat]
    exact h

/-- C4 witness: evaluating the matching consequences on concrete lines. -/
theorem C4_pattern_rule_witness :
    lineMatches (strL "/products/{id}") (strL "x(/products/123)") = true ∧
    lineMatches (strL "/products/{id}") (strL "u(/productsX/1)") = false ∧
    path_to_pattern (strL "/users") = strL "/users" :=
  ⟨C4_pattern_rule.2.2.2.1 (strL "x(/products/123)") (by decide),
    C4_pattern_rule.2.2.2.2.2 (strL "u(/productsX/1)") (by decide),
    C4_pattern_rule.2.2.1 (strL "/users") (by decide)⟩

/-! Claim C5. -/

/-- C5: each qualifying line yields exactly one Reference — the scanner
output equals the spec-side list holding one entry per nonempty processed
line satisfying the literal-or-pattern disjunction (under which a line
matching both rules still counts once) — and every Reference carries the
raw line stripped and truncated to at most 100 characters together with a
1-based in-range line number. -/
theorem C5_one_reference_per_line (api_path : Str) (lines : List Str) (ext : Str) :
    find_api_references api_path lines ext = refsSpec api_path lines ext ∧
    ∀ r ∈ find_api_references api_path lines ext,
      r.code.length ≤ 100 ∧ 1 ≤ r.line ∧ r.line ≤ lines.length := by
  constructor
  · exact findRefsAux_eq_refsSpecAux api_path ext lines 1 false
  · intro r hr
    have h := findRefsAux_bounds api_path ext lines 1 false r hr
    exact ⟨h.2.2, h.1, by omega⟩

/-- C5 witness: evaluating the correspondence on a one-line file. -/
theorem C5_one_reference_per_line_witness :
    find_api_references (strL "/users") [strL "fetch(/users);"] (strL ".js") =
      refsSpec (strL "/users") [strL "fetch(/users);"] (strL ".js") ∧
    (Reference.mk 1 (strL "fetch(/users);")).code.length ≤ 100 :=
  ⟨(C5_one_reference_per_line (strL "/users") [strL "fetch(/users);"] (strL ".js")).1,
    ((C5_one_reference_per_line (strL "/users") [strL "fetch(/users);"] (strL ".js")).2
      (Reference.mk 1 (strL "fetch(/users);")) (by decide)).1⟩

/-! Claim C6. -/

/-- C6: in the Normal state the trailing line-comment rule holds — the
leftmost occurrence of the marker (characterized positionally, matching the
left-to-right scan) is a real comment start iff the text before it carries
an even count of single quotes and an even count of double quotes; when
balanced the line is truncated there and right-trimmed, otherwise (and when
no marker occurs) the line is emitted unchanged; and a non-block-start line
is processed exactly by this rule with the language's marker, staying
Normal. -/
theorem C6_quote_balance (line cc : Str) :
    (∀ pos : Nat, cc.isPrefixOf (line.drop pos) = true →
      (∀ j, j < pos → cc.isPrefixOf (line.drop j) = false) →
      remove_inline_comment line cc =
        if (line.take pos).count sq % 2 = 0 ∧ (line.take pos).count dq % 2 = 0 then
          pyRstrip (line.take pos)
        else line) ∧
    ((∀ j, j ≤ line.length → cc.isPrefixOf (line.drop j) = false) →
      remove_inline_comment line cc = line) ∧
    (∀ ext : Str, is_multiline_comment_start line ext = false →
      process_code_line line ext false =
        (remove_inline_comment line (get_comment_char ext), false)) := by
  refine ⟨?_, ?_, ?_⟩
  · intro pos h1 h2
    have hfind : pyFind cc line = some pos := pyFind_eq_some_iff.mpr ⟨h1, h2⟩
    simp only [remove_inline_comment, hfind]
  · intro hall
    have hfind : pyFind cc line = none := by
      rw [pyFind_eq_none_iff]
      intro j
      by_cases hj : j ≤ line.length
      · exact hall j hj
      · have h0 := hall line.length (le_refl _)
        rw [List.drop_length] at h0
        have hd : line.drop j = [] := by
          apply List.drop_eq_nil_of_le
          omega
        rw [hd]
        exact h0
    simp only [remove_inline_comment, hfind]
  · intro ext hstart
    simp [process_code_line, hstart]

/-- C6 witness: a balanced line is truncated at the marker, a marker inside
a string literal (odd double-quote count) is kept, and a marker-free line
passes through unchanged. -/
theorem C6_quote_balance_witness :
    remove_inline_comment (strL "x = 1; // note") (strL "//") = strL "x = 1;" ∧
    remove_inline_comment (strL "u = \x22ht//x\x22") (strL "//") =
      strL "u = \x22ht//x\x22" ∧
    remove_inline_comment (strL "plain") (strL "//") = strL "plain" := by
  refine ⟨?_, ?_, ?_⟩
  · have h := (C6_quote_balance (strL "x = 1; // note") (strL "//")).1 7
      (by decide) (by decide)
    rw [h]
    decide
  · have h := (C6_quote_balance (strL "u = \x22ht//x\x22") (strL "//")).1 7
      (by decide) (by decide)
    rw [h]
    decide
  · exact (C6_quote_balance (strL "plain") (strL "//")).2.1 (by decide)

/-! Claim C7. -/

/-- C7 counterexample: in a `//`-style file, the line `int x; /* c` begins a
block comment (the state moves to InsideBlockComment) although its trimmed
content does not start with the block marker — it merely contains it — so
the claim's "only when the line's trimmed content starts a block comment
marker" is false on the code. -/
theorem C7_counterexample :
    process_code_line (strL "int x; /* c") (strL ".js") false =
      (strL "int x;", true) ∧
    blockStart.isPrefixOf (pyStrip (strL "int x; /* c")) = false := by
  exact ⟨by decide, by decide⟩

/-- C7 (amended: for `//`-style files the trigger is containment of the
start marker in the trimmed content, not the trimmed content starting with
it).  For a `//`-style file: when the line holds a start marker whose
leftmost occurrence is at `i` and a matching end marker follows at leftmost
offset `j` after it, the output is the text before the start marker
concatenated with the text after the end marker, trimmed, and the state
stays Normal; with no end marker after it the output is the text before the
start marker, trimmed, and the state becomes InsideBlockComment; and with
no start marker in the trimmed content the line undergoes only the
trailing-line-comment rule, staying Normal.  For a Python-tagged file: a
block comment is begun only when the trimmed content starts a triple-quote
marker; when it does and the same marker occurs again at leftmost offset
`e` past the opener, the output is the text after that end marker, trimmed
(the text before the start marker being empty), and the state stays Normal;
with no second occurrence the output is empty and the state becomes
InsideBlockComment; when the trimmed content starts neither marker the line
undergoes only the trailing-line-comment rule, staying Normal. -/
theorem C7_block_comment_rule (line ext : Str) :
    (ext ≠ strL ".py" →
      (∀ i j : Nat,
        blockStart.isPrefixOf (line.drop i) = true →
        (∀ k, k < i → blockStart.isPrefixOf (line.drop k) = false) →
        blockEnd.isPrefixOf ((line.drop (i + 2)).drop j) = true →
        (∀ k, k < j → blockEnd.isPrefixOf ((line.drop (i + 2)).drop k) = false) →
        process_code_line line ext false =
          (pyStrip (line.take i ++ (line.drop (i + 2)).drop (j + 2)), false)) ∧
      (∀ i : Nat,
        blockStart.isPrefixOf (line.drop i) = true →
        (∀ k, k < i → blockStart.isPrefixOf (line.drop k) = false) →
        (∀ k, k ≤ (line.drop (i + 2)).length →
          blockEnd.isPrefixOf ((line.drop (i + 2)).drop k) = false) →
        process_code_line line ext false = (pyStrip (line.take i), true)) ∧
      (pyContains (pyStrip line) blockStart = false →
        process_code_line line ext false =
          (remove_inline_comment line (get_comment_char ext), false))) ∧
    (ext = strL ".py" →
      (∀ e : Nat,
        tripleD.isPrefixOf (pyStrip line) = true →
        tripleD.isPrefixOf (((pyStrip line).drop 3).drop e) = true →
        (∀ k, k < e → tripleD.isPrefixOf (((pyStrip line).drop 3).drop k) = false) →
        process_code_line line ext false =
          (pyStrip (((pyStrip line).drop 3).drop (e + 3)), false)) ∧
      (tripleD.isPrefixOf (pyStrip line) = true →
        (∀ k, k ≤ ((pyStrip line).drop 3).length →
          tripleD.isPrefixOf (((pyStrip line).drop 3).drop k) = false) →
        process_code_line line ext false = ([], true)) ∧
      (∀ e : Nat,
        tripleD.isPrefixOf (pyStrip line) = false →
        tripleS.isPrefixOf (pyStrip line) = true →
        tripleS.isPrefixOf (((pyStrip line).drop 3).drop e) = true →
        (∀ k, k < e → tripleS.isPrefixOf (((pyStrip line).drop 3).drop k) = false) →
        process_code_line line ext false =
          (pyStrip (((pyStrip line).drop 3).drop (e + 3)), false)) ∧
      (tripleD.isPrefixOf (pyStrip line) = false →
        tripleS.isPrefixOf (pyStrip line) = true →
        (∀ k, k ≤ ((pyStrip line).drop 3).length →
          tripleS.isPrefixOf (((pyStrip line).drop 3).drop k) = false) →
        process_code_line line ext false = ([], true)) ∧
      (tripleD.isPrefixOf (pyStrip line) = false →
        tripleS.isPrefixOf (pyStrip line) = false →
        process_code_line line ext false =
          (remove_inline_comment line (get_comment_char ext), false))) := by
  constructor
  · intro hext
    refine ⟨?_, ?_, ?_⟩
    · intro i j hi1 hi2 hj1 hj2
      have hfi : pyFind blockStart line = some i := pyFind_eq_some_iff.mpr ⟨hi1, hi2⟩
      have hcl : pyContains line blockStart = true := by
        rw [pyContains, hfi]
        rfl
      have hcs : pyContains (pyStrip line) blockStart = true :=
        contains_pyStrip_of (by decide) hcl
      have hstart : is_multiline_comment_start line ext = true := by
        simp only [is_multiline_comment_start, if_neg hext]
        exact hcs
      have hfj : pyFind blockEnd (line.drop (i + 2)) = some j :=
        pyFind_eq_some_iff.mpr ⟨hj1, hj2⟩
      simp only [process_code_line, Bool.false_eq_true, if_false, hstart, if_true,
        if_neg hext, hcl, hfi, hfj]
    · intro i hi1 hi2 hnoend
      have hfi : pyFind blockStart line = some i := pyFind_eq_some_iff.mpr ⟨hi1, hi2⟩
      have hcl : pyContains line blockStart = true := by
        rw [pyContains, hfi]
        rfl
      have hcs : pyContains (pyStrip line) blockStart = true :=
        contains_pyStrip_of (by decide) hcl
      have hstart : is_multiline_comment_start line ext = true := by
        simp only [is_multiline_comment_start, if_neg hext]
        exact hcs
      have hfj : pyFind blockEnd (line.drop (i + 2)) = none := by
        rw [pyFind_eq_none_iff]
        intro k
        by_cases hk : k ≤ (line.drop (i + 2)).length
        · exact hnoend k hk
        · have h0 := hnoend (line.drop (i + 2)).length (le_refl _)
          rw [List.drop_length] at h0
          have hd : (line.drop (i + 2)).drop k = [] := by
            apply List.drop_eq_nil_of_le
            omega
          rw [hd]
          exact h0
      simp only [process_code_line, Bool.false_eq_true, if_false, hstart, if_true,
        if_neg hext, hcl, hfi, hfj]
    · intro h
      have hstart : is_multiline_comment_start line ext = false := by
        simp only [is_multiline_comment_start, if_neg hext]
        exact h
      simp [process_code_line, hstart]
  · intro hext
    subst hext
    have hstart_eq : is_multiline_comment_start line (strL ".py") =
        (tripleD.isPrefixOf (pyStrip line) || tripleS.isPrefixOf (pyStrip line)) := by
      simp [is_multiline_comment_start]
    have hproc : process_code_line line (strL ".py") false =
        (if is_multiline_comment_start line (strL ".py") = true then
          (if tripleD.isPrefixOf (pyStrip line) = true then
            (match pyFind tripleD ((pyStrip line).drop 3) with
             | some e => (pyStrip (((pyStrip line).drop 3).drop (e + 3)), false)
             | none => (([] : Str), true))
           else if tripleS.isPrefixOf (pyStrip line) = true then
            (match pyFind tripleS ((pyStrip line).drop 3) with
             | some e => (pyStrip (((pyStrip line).drop 3).drop (e + 3)), false)
             | none => ([], true))
           else (remove_inline_comment line (get_comment_char (strL ".py")), false))
         else (remove_inline_comment line (get_comment_char (strL ".py")), false)) := by
      simp [process_code_line]
    refine ⟨?_, ?_, ?_, ?_, ?_⟩
    · intro e hD hOcc hMin
      have hstart : is_multiline_comment_start line (strL ".py") = true := by
        rw [hstart_eq, hD, Bool.true_or]
      have hfind : pyFind tripleD ((pyStrip line).drop 3) = some e :=
        pyFind_eq_some_iff.mpr ⟨hOcc, hMin⟩
      rw [hproc, if_pos hstart, if_pos hD, hfind]
    · intro hD hno
      have hstart : is_multiline_comment_start line (strL ".py") = true := by
        rw [hstart_eq, hD, Bool.true_or]
      have hfind : pyFind tripleD ((pyStrip line).drop 3) = none := by
        rw [pyFind_eq_none_iff]
        intro k
        by_cases hk : k ≤ ((pyStrip line).drop 3).length
        · exact hno k hk
        · have h0 := hno ((pyStrip line).drop 3).length (le_refl _)
          rw [List.drop_length] at h0
          have hd : ((pyStrip line).drop 3).drop k = [] := by
            apply List.drop_eq_nil_of_le
            omega
          rw [hd]
          exact h0
      rw [hproc, if_pos hstart, if_pos hD, hfind]
    · intro e hD hS hOcc hMin
      have hstart : is_multiline_comment_start line (strL ".py") = true := by
        rw [hstart_eq, hD, hS, Bool.false_or]
      have hfind : pyFind tripleS ((pyStrip line).drop 3) = some e :=
        pyFind_eq_some_iff.mpr ⟨hOcc, hMin⟩
      rw [hproc, if_pos hstart, hD]
      simp only [Bool.false_eq_true, if_false]
      rw [if_pos hS, hfind]
    · intro hD hS hno
      have hstart : is_multiline_comment_start line (strL ".py") = true := by
        rw [hstart_eq, hD, hS, Bool.false_or]
      have hfind : pyFind tripleS ((pyStrip line).drop 3) = none := by
        rw [pyFind_eq_none_iff]
        intro k
        by_cases hk : k ≤ ((pyStrip line).drop 3).length
        · exact hno k hk
        · have h0 := hno ((pyStrip line).drop 3).length (le_refl _)
          rw [List.drop_length] at h0
          have hd : ((pyStrip line).drop 3).drop k = [] := by
            apply List.drop_eq_nil_of_le
            omega
          rw [hd]
          exact h0
      rw [hproc, if_pos hstart, hD]
      simp only [Bool.false_eq_true, if_false]
      rw [if_pos hS, hfind]
    · intro hD hS
      have hstart : is_multiline_comment_start line (strL ".py") = false := by
        rw [hstart_eq, hD, hS, Bool.or_false]
      rw [hproc, hstart]
      simp only [Bool.false_eq_true, if_false]

/-- C7 witness: in a `//`-style file a same-line block comment is excised
with the state staying Normal and an unterminated block start truncates the
line and enters the block state; in a Python-tagged file a docstring closed
on the same line emits the text after the closer and an unterminated opener
emits nothing and enters the block state. -/
theorem C7_block_comment_rule_witness :
    process_code_line (strL "a /* b */ c") (strL ".js") false =
      (strL "a  c", false) ∧
    process_code_line (strL "q(); /* open") (strL ".js") false =
      (strL "q();", true) ∧
    process_code_line (strL "\x22\x22\x22doc\x22\x22\x22 tail") (strL ".py") false =
      (strL "tail", false) ∧
    process_code_line (strL "\x22\x22\x22doc") (strL ".py") false =
      (strL "", true) := by
  refine ⟨?_, ?_, ?_, ?_⟩
  · have h := ((C7_block_comment_rule (strL "a /* b */ c") (strL ".js")).1
      (by decide)).1 2 3 (by decide) (by decide) (by decide) (by decide)
    rw [h]
    decide
  · have h := ((C7_block_comment_rule (strL "q(); /* open") (strL ".js")).1
      (by decide)).2.1 5 (by decide) (by decide) (by decide)
    rw [h]
    decide
  · have h := ((C7_block_comment_rule (strL "\x22\x22\x22doc\x22\x22\x22 tail")
      (strL ".py")).2 rfl).1 3 (by decide) (by decide) (by decide)
    rw [h]
    decide
  · have h := ((C7_block_comment_rule (strL "\x22\x22\x22doc") (strL ".py")).2
      rfl).2.1 (by decide) (by decide)
    rw [h]
    decide

/-! Claim C8. -/

/-- C8 counterexample: a file whose read fails is skipped and contributes
nothing, but NO warning is recorded — `analyze_single_file` swallows every
exception and returns an empty pair list, so the coordinator's warning
branch (which fires only when the task itself raises) stays silent: the
recorded warning list is empty, refuting the claim's "a warning recorded". -/
theorem C8_counterexample :
    analyze_api_usage_parallel [strL "/users"]
        [FileData.mk (strL "bad.js") (strL ".js") none] =
      ([(strL "/users", [])], []) := by
  decide

/-- C8 (amended: the failing file is skipped silently, with no warning
recorded): removing a file whose content fails to read from the file list
leaves the whole aggregated outcome — every endpoint's reference list, the
key set and the warning list — unchanged, so the run is not aborted and the
failing file contributes zero references to every endpoint. -/
theorem C8_failed_file_skipped (api_paths : List Str) (pre post : List FileData)
    (bad : FileData) (hbad : bad.content = none) :
    analyze_api_usage_parallel api_paths (pre ++ bad :: post) =
      analyze_api_usage_parallel api_paths (pre ++ post) := by
  have hstep : ∀ acc, coordinatorStep api_paths acc bad = acc := by
    intro acc
    simp only [coordinatorStep, taskOutcome, analyze_single_file_none hbad]
    rfl
  simp only [analyze_api_usage_parallel, List.foldl_append, List.foldl_cons, hstep]

/-- C8 witness: unreadable singleton versus the empty file list. -/
theorem C8_failed_file_skipped_witness :
    analyze_api_usage_parallel [strL "/a"]
        [FileData.mk (strL "b.js") (strL ".js") none] =
      analyze_api_usage_parallel [strL "/a"] [] :=
  C8_failed_file_skipped [strL "/a"] [] []
    (FileData.mk (strL "b.js") (strL ".js") none) rfl

/-! Claim C9. -/

/-- C9 counterexample: with no candidate files the program exits with
status 0 BEFORE computing any result, so no result map with empty
reference lists exists — the scan phase returns no result at all, refuting
the claim's "whose result contains an empty reference list for every
endpoint" (the zero exit status itself holds). -/
theorem C9_counterexample :
    (mainScanPhase false [strL "/users"] []).2 ≠
      some (emptyResult [strL "/users"]) ∧
    (mainScanPhase false [strL "/users"] []).1 = 0 := by
  exact ⟨by decide, by decide⟩

/-- C9 (amended: the zero-file run exits successfully without computing a
result): with no candidate files the run exits with status 0 and produces
no result map; the analysis itself, had it run on the empty file list,
would map every declared endpoint to an empty reference list. -/
theorem C9_zero_file_run (fail_on_unused : Bool) (api_paths : List Str) :
    mainScanPhase fail_on_unused api_paths [] = (0, none) ∧
    (analyze_api_usage_parallel api_paths []).1 = emptyResult api_paths :=
  ⟨rfl, rfl⟩

/-! Claim C10. -/

/-- C10: inside a block comment in a Python-tagged file every line emits
empty output, and the block ends (state back to Normal) exactly when the
line contains either triple-quote marker — the state records no opening
marker, so a marker different from the opener also closes the block. -/
theorem C10_python_block_end (line : Str) :
    (process_code_line line (strL ".py") true).1 = [] ∧
    ((process_code_line line (strL ".py") true).2 = false ↔
      (pyContains line tripleD = true ∨ pyContains line tripleS = true)) := by
  have hfreeD : ∀ c ∈ tripleD, isPySpace c = false := by decide
  have hfreeS : ∀ c ∈ tripleS, isPySpace c = false := by decide
  have hend : is_multiline_comment_end line (strL ".py") =
      (pyContains (pyStrip line) tripleD || pyContains (pyStrip line) tripleS) := by
    simp [is_multiline_comment_end]
  have hproc : process_code_line line (strL ".py") true =
      (if is_multiline_comment_end line (strL ".py") = true then (([] : Str), false)
       else ([], true)) := by
    simp [process_code_line]
  constructor
  · rw [hproc]
    by_cases hE : is_multiline_comment_end line (strL ".py") = true
    · rw [if_pos hE]
    · rw [if_neg hE]
  · rw [hproc]
    by_cases hE : is_multiline_comment_end line (strL ".py") = true
    · rw [if_pos hE]
      refine iff_of_true rfl ?_
      rw [hend, Bool.or_eq_true] at hE
      rcases hE with h | h
      · exact Or.inl (contains_of_pyStrip h)
      · exact Or.inr (contains_of_pyStrip h)
    · rw [if_neg hE]
      refine iff_of_false (by simp) ?_
      intro hcon
      apply hE
      rw [hend, Bool.or_eq_true]
      rcases hcon with h | h
      · exact Or.inl (contains_pyStrip_of hfreeD h)
      · exact Or.inr (contains_pyStrip_of hfreeS h)

end Ripple
